import Mathlib

/-!
Verification development for the am-auditor-pro repository.

The repository ships the React frontend (`frontend/src/components/Upload.js`,
`Status.js`, `Results.js`), configuration files, and documentation
(`TRANSCRIPTION_SETUP.md`, `README`, `env.example`).  The Python backend
(rubric scoring engine, extraction dispatcher, job state machine) is not part
of the source tree, so those components are modelled from the specification,
as flagged in the doc comments below.  Everything else is a shallow embedding
of the JavaScript in `frontend/src/components`.
-/

/- ===================================================================
   Part 1: the Rubric Scoring Engine (modelled from the spec).
   =================================================================== -/

/-- Modelled from the spec: a raw scored item as parsed from the LLM
provider response, before validation (spec section 4.3 step 3).  The backend
Rubric Scoring Engine is not under `src/`; only its frontend consumer
(`Results.js`) is.  `score` is the raw model-supplied integer, possibly out
of the 1..5 range; `improvement_guidance` may be absent. -/
structure RawScoredItem where
  category : String
  item : String
  score : Int
  justification : String
  evidence : List String
  improvement_guidance : Option String
deriving DecidableEq

/-- Modelled from the spec: a validated `ScoredItem` (spec section 3 data
model).  `low_confidence` is the flag set when an out-of-range score was
clamped (spec section 4.3 step 3). -/
structure ScoredItem where
  category : String
  item : String
  score : Int
  justification : String
  evidence : List String
  improvement_guidance : Option String
  low_confidence : Bool
deriving DecidableEq

/-- Modelled from the spec: out-of-range scores are clamped into 1..5
(spec section 4.3 step 3: "score must be an integer 1-5, out-of-range values
are clamped and the item flagged low_confidence"). -/
def clampScore (s : Int) : Int := max 1 (min 5 s)

/-- Modelled from the spec: per-item validation (spec section 4.3 step 3).
The score is clamped; `improvement_guidance` must be present when the
(clamped) score is below 4 - a missing guidance is a `ValidationError`
(`none`); when the score is 4 or 5 a supplied guidance is ignored, matching
the section 3 invariant that it is absent for scores of 4 and above. -/
def validateItem (r : RawScoredItem) : Option ScoredItem :=
  let s := clampScore r.score
  if s < 4 then
    match r.improvement_guidance with
    | none => none
    | some g =>
        some ⟨r.category, r.item, s, r.justification, r.evidence, some g,
          decide (s ≠ r.score)⟩
  else
    some ⟨r.category, r.item, s, r.justification, r.evidence, none,
      decide (s ≠ r.score)⟩

/-- Modelled from the spec: validate every item of the model response; any
per-item `ValidationError` fails the whole response (spec section 4.3
step 3). -/
def validateAll : List RawScoredItem → Option (List ScoredItem)
  | [] => some []
  | r :: rs =>
    match validateItem r, validateAll rs with
    | some i, some is => some (i :: is)
    | _, _ => none

/-- Modelled from the spec: the fixed, ordered canonical category set, with
the generic trailing bucket `"Other"` for unrecognized labels (spec
section 4.3 step 4).  The concrete names are taken from the alias table in
`Results.js` (`categoryConfig`, numbered and unnumbered variants). -/
def canonicalCategories : List String :=
  ["Core Communication Fundamentals",
   "Consultation & Pitching Focus",
   "Servicing Focus",
   "Business Development Focus",
   "Other"]

/-- Modelled from the spec: alias resolution - each raw category label is
resolved through the alias table (numbered labels are aliases of the
unnumbered canonical names, as in the `categoryConfig` table of
`Results.js`); unrecognized labels are bucketed under the generic trailing
category `"Other"` rather than dropped (spec section 4.3 step 4). -/
def resolveCategory (c : String) : String :=
  if c = "Core Communication Fundamentals" ∨
     c = "1. Core Communication Fundamentals" then
    "Core Communication Fundamentals"
  else if c = "Consultation & Pitching Focus" ∨
          c = "2. Consultation & Pitching Focus" then
    "Consultation & Pitching Focus"
  else if c = "Servicing Focus" ∨ c = "3. Servicing Focus" then
    "Servicing Focus"
  else if c = "Business Development Focus" then
    "Business Development Focus"
  else "Other"

/-- Modelled from the spec: rewrite one validated item to its canonical
category (spec section 4.3 step 4). -/
def canonicalizeItem (it : ScoredItem) : ScoredItem :=
  { it with category := resolveCategory it.category }

/-- Sum of the scores of a list of scored items. -/
def sumScores (items : List ScoredItem) : Int :=
  (items.map (fun it => it.score)).sum

/-- Mean score over `items` as a rational (0 when the list is empty, by the
convention that division by zero is zero). -/
def meanScore (items : List ScoredItem) : ℚ :=
  (sumScores items : ℚ) / (items.length : ℚ)

/-- Modelled from the spec: `total_score = round(100 * mean(score)/5)` over
all scored items (spec section 3 invariants), written with integer
arithmetic (`Int` division is floor division, and
`round x = ⌊x + 1/2⌋`, so `round(20 * s / n) = (40 * s + n) / (2 * n)`);
the theorem `totalScore_eq_round` proves this equal to the rounded
rational formula of the spec.  Defined as 0 for an empty item list. -/
def totalScore (items : List ScoredItem) : Int :=
  if items.length = 0 then 0
  else (40 * sumScores items + items.length) / (2 * (items.length : Int))

/-- Modelled from the spec: `pass_status = (total_score >= 80)` with the
fixed cutoff 80 (spec section 3 invariants; `Results.js` line 327 displays
"Passing mark is 80%"). -/
def passStatus (items : List ScoredItem) : Bool :=
  decide (80 ≤ totalScore items)

/-- Modelled from the spec: the slice of an `AnalysisResult` produced by the
Rubric Scoring Engine that the claims are about (spec section 3 data
model). -/
structure AnalysisResult where
  conversation_type : String
  subject : String
  total_score : Int
  pass_status : Bool
  scored_items : List ScoredItem
deriving DecidableEq

/-- Modelled from the spec: the aggregation path of the Rubric Scoring
Engine (spec section 4.3 steps 3-5): validate and clamp every item (a
validation failure after retry fails the job, giving `none`), reject a
response that is missing the required items (modelled as the empty
response), canonicalize categories, then compute `total_score` and
`pass_status` per the section 3 invariants.  A `some` value is the result
persisted for a completed job. -/
def runScoringEngine (ctype subject : String) (raw : List RawScoredItem) :
    Option AnalysisResult :=
  match validateAll raw with
  | none => none
  | some items0 =>
    if items0.isEmpty then none
    else
      let items := items0.map canonicalizeItem
      some ⟨ctype, subject, totalScore items, passStatus items, items⟩

/- ===================================================================
   Part 2: lemmas about the scoring engine.
   =================================================================== -/

/-- Clamped scores always land in the 1..5 range. -/
theorem clampScore_bounds (x : Int) : 1 ≤ clampScore x ∧ clampScore x ≤ 5 := by
  unfold clampScore
  constructor
  · exact le_max_left 1 (min 5 x)
  · exact max_le (by norm_num) (min_le_left 5 x)

/-- A validated item has a score in 1..5 and carries improvement guidance
exactly when its score is below 4. -/
theorem validateItem_some (r : RawScoredItem) (it : ScoredItem)
    (h : validateItem r = some it) :
    (1 ≤ it.score ∧ it.score ≤ 5) ∧
      (it.improvement_guidance.isSome ↔ it.score < 4) := by
  have hb := clampScore_bounds r.score
  unfold validateItem at h
  by_cases hlt : clampScore r.score < 4
  · rw [if_pos hlt] at h
    cases hig : r.improvement_guidance with
    | none => rw [hig] at h; exact absurd h (by simp)
    | some g =>
      rw [hig] at h
      cases h
      refine ⟨hb, ?_⟩
      simpa using hlt
  · rw [if_neg hlt] at h
    cases h
    refine ⟨hb, ?_⟩
    simpa using hlt

/-- Validation preserves the number of items. -/
theorem validateAll_length (rs : List RawScoredItem) (is : List ScoredItem)
    (h : validateAll rs = some is) : is.length = rs.length := by
  induction rs generalizing is with
  | nil =>
    unfold validateAll at h
    cases h
    rfl
  | cons r rs ih =>
    unfold validateAll at h
    cases hi : validateItem r with
    | none => rw [hi] at h; exact absurd h (by simp)
    | some i =>
      cases hrest : validateAll rs with
      | none => rw [hi, hrest] at h; exact absurd h (by simp)
      | some is' =>
        rw [hi, hrest] at h
        cases h
        simp [ih is' hrest]

/-- Every item of a validated list comes from `validateItem`. -/
theorem validateAll_mem (rs : List RawScoredItem) (is : List ScoredItem)
    (h : validateAll rs = some is) :
    ∀ it ∈ is, ∃ r, validateItem r = some it := by
  induction rs generalizing is with
  | nil =>
    unfold validateAll at h
    cases h
    intro it hit
    exact absurd hit (by simp)
  | cons r rs ih =>
    unfold validateAll at h
    cases hi : validateItem r with
    | none => rw [hi] at h; exact absurd h (by simp)
    | some i =>
      cases hrest : validateAll rs with
      | none => rw [hi, hrest] at h; exact absurd h (by simp)
      | some is' =>
        rw [hi, hrest] at h
        cases h
        intro it hit
        rcases List.mem_cons.mp hit with hhd | htl
        · exact ⟨r, by rw [hi, hhd]⟩
        · exact ih is' hrest it htl

/-- Canonicalization does not change the score. -/
theorem canonicalizeItem_score (it : ScoredItem) :
    (canonicalizeItem it).score = it.score := rfl

/-- Canonicalization does not change the improvement guidance. -/
theorem canonicalizeItem_guidance (it : ScoredItem) :
    (canonicalizeItem it).improvement_guidance = it.improvement_guidance := rfl

/-- Canonicalization always produces a member of the canonical set. -/
theorem resolveCategory_mem (c : String) :
    resolveCategory c ∈ canonicalCategories := by
  unfold resolveCategory canonicalCategories
  split
  · simp
  · split
    · simp
    · split
      · simp
      · split <;> simp

/-- The integer formula of `totalScore` agrees with the spec's rounded
rational formula `round(100 * mean(score) / 5)`. -/
theorem totalScore_eq_round (items : List ScoredItem) :
    totalScore items = round (100 * meanScore items / 5) := by
  unfold totalScore meanScore
  by_cases h : items.length = 0
  · rw [if_pos h, h]
    norm_num
  · rw [if_neg h, round_eq]
    have hn : ((items.length : ℚ)) ≠ 0 := by exact_mod_cast h
    have key : 100 * ((sumScores items : ℚ) / (items.length : ℚ)) / 5 + 1 / 2
        = ((40 * sumScores items + (items.length : Int) : Int) : ℚ) /
          ((2 * items.length : ℕ) : ℚ) := by
      push_cast
      field_simp
      ring
    rw [key, Rat.floor_intCast_div_natCast]
    push_cast
    ring_nf

/-- Bounds on the score sum of a list whose scores all lie in 1..5. -/
theorem sumScores_bounds (items : List ScoredItem)
    (h : ∀ it ∈ items, 1 ≤ it.score ∧ it.score ≤ 5) :
    (items.length : Int) ≤ sumScores items ∧
      sumScores items ≤ 5 * items.length := by
  induction items with
  | nil => simp [sumScores]
  | cons a l ih =>
    have ha := h a (List.mem_cons_self a l)
    have hl := ih (fun it hit => h it (List.mem_cons_of_mem a hit))
    have hsum : sumScores (a :: l) = a.score + sumScores l := by
      simp [sumScores]
    rw [hsum]
    simp only [List.length_cons]
    push_cast
    omega

/-- The aggregate score of a non-empty list of validated items lies in
20..100. -/
theorem totalScore_bounds (items : List ScoredItem) (hne : items ≠ [])
    (h : ∀ it ∈ items, 1 ≤ it.score ∧ it.score ≤ 5) :
    20 ≤ totalScore items ∧ totalScore items ≤ 100 := by
  obtain ⟨hlo, hhi⟩ := sumScores_bounds items h
  have hn : 0 < (items.length : ℚ) := by
    have hz : items.length ≠ 0 := by
      simpa [List.length_eq_zero] using hne
    exact_mod_cast Nat.pos_of_ne_zero hz
  have hlo' : (items.length : ℚ) ≤ (sumScores items : ℚ) := by
    exact_mod_cast hlo
  have hhi' : (sumScores items : ℚ) ≤ 5 * (items.length : ℚ) := by
    exact_mod_cast hhi
  have hm1 : 1 ≤ meanScore items := by
    unfold meanScore
    exact (one_le_div hn).mpr hlo'
  have hm5 : meanScore items ≤ 5 := by
    unfold meanScore
    exact (div_le_iff hn).mpr (by linarith)
  rw [totalScore_eq_round]
  constructor
  · rw [round_eq]
    exact Int.le_floor.mpr (by push_cast; linarith)
  · rw [round_eq]
    have hfl : ⌊100 * meanScore items / 5 + 1 / 2⌋ < 101 :=
      Int.floor_lt.mpr (by push_cast; linarith)
    omega

/-- Anatomy of a successful engine run. -/
theorem runScoringEngine_some (ctype subject : String)
    (raw : List RawScoredItem) (res : AnalysisResult)
    (h : runScoringEngine ctype subject raw = some res) :
    ∃ items0, validateAll raw = some items0 ∧ items0 ≠ [] ∧
      res.scored_items = items0.map canonicalizeItem ∧
      res.total_score = totalScore res.scored_items ∧
      res.pass_status = passStatus res.scored_items := by
  unfold runScoringEngine at h
  cases hv : validateAll raw with
  | none => rw [hv] at h; exact absurd h (by simp)
  | some items0 =>
    rw [hv] at h
    dsimp only at h
    by_cases he : items0.isEmpty
    · rw [if_pos he] at h; exact absurd h (by simp)
    · rw [if_neg he] at h
      cases h
      exact ⟨items0, rfl, by simpa [List.isEmpty_iff] using he, rfl, rfl, rfl⟩

/-- All scores in the persisted result are in 1..5. -/
theorem result_scores_bounded (ctype subject : String)
    (raw : List RawScoredItem) (res : AnalysisResult)
    (h : runScoringEngine ctype subject raw = some res) :
    ∀ it ∈ res.scored_items, 1 ≤ it.score ∧ it.score ≤ 5 := by
  obtain ⟨items0, hv, _, hsi, _, _⟩ :=
    runScoringEngine_some ctype subject raw res h
  rw [hsi]
  intro it hit
  obtain ⟨it0, hit0, rfl⟩ := List.mem_map.mp hit
  obtain ⟨r, hr⟩ := validateAll_mem raw items0 hv it0 hit0
  have hb := (validateItem_some r it0 hr).1
  simpa [canonicalizeItem_score] using hb

/- ===================================================================
   Part 3: claims C1-C4 about the scoring engine.
   =================================================================== -/

/-- The raw category labels the alias table recognizes (the keys of
`categoryConfig` in `Results.js`, numbered and unnumbered). -/
def recognizedLabels : List String :=
  ["Core Communication Fundamentals", "1. Core Communication Fundamentals",
   "Consultation & Pitching Focus", "2. Consultation & Pitching Focus",
   "Servicing Focus", "3. Servicing Focus",
   "Business Development Focus"]

/-- Labels outside the alias table all land in the generic trailing
bucket. -/
theorem resolveCategory_unrecognized (c : String)
    (h : c ∉ recognizedLabels) : resolveCategory c = "Other" := by
  simp only [recognizedLabels, List.mem_cons, List.not_mem_nil, or_false,
    not_or] at h
  obtain ⟨h1, h2, h3, h4, h5, h6, h7⟩ := h
  unfold resolveCategory
  simp [h1, h2, h3, h4, h5, h6, h7]

/-- Claim C1: for every completed job, the persisted `AnalysisResult`
satisfies `total_score ∈ [0,100]` and `pass_status == (total_score >= 80)`,
with the pass threshold the fixed cutoff 80. -/
theorem c1_total_score_range_and_pass_cutoff (ctype subject : String)
    (raw : List RawScoredItem) (res : AnalysisResult)
    (h : runScoringEngine ctype subject raw = some res) :
    (0 ≤ res.total_score ∧ res.total_score ≤ 100) ∧
      (res.pass_status = true ↔ 80 ≤ res.total_score) := by
  obtain ⟨items0, hv, hne0, hsi, hts, hps⟩ :=
    runScoringEngine_some ctype subject raw res h
  have hbounds := result_scores_bounded ctype subject raw res h
  have hne : res.scored_items ≠ [] := by
    rw [hsi]
    simpa using hne0
  obtain ⟨hlo, hhi⟩ := totalScore_bounds res.scored_items hne hbounds
  refine ⟨⟨by omega, by rw [hts]; exact hhi⟩, ?_⟩
  rw [hps, hts]
  simp [passStatus]

/-- Input for the concrete engine runs used by the claim witnesses: one
high-scoring item under a numbered alias label and one low-scoring item
under an unrecognized label. -/
def rawW : List RawScoredItem :=
  [⟨"1. Core Communication Fundamentals", "Active Listening", 5,
    "Excellent engagement", ["quote one"], none⟩,
   ⟨"Mystery Category", "Empathy", 2, "Weak", [], some "Practice empathy"⟩]

/-- First item of the result the engine produces on `rawW`. -/
def itemW1 : ScoredItem :=
  ⟨"Core Communication Fundamentals", "Active Listening", 5,
   "Excellent engagement", ["quote one"], none, false⟩

/-- Second item of the result the engine produces on `rawW`. -/
def itemW2 : ScoredItem :=
  ⟨"Other", "Empathy", 2, "Weak", [], some "Practice empathy", false⟩

/-- The result the engine produces on `rawW`: mean 7/2, total score 70,
below the cutoff. -/
def resW : AnalysisResult :=
  ⟨"service", "billing inquiry", 70, false, [itemW1, itemW2]⟩

/-- Witness for claim C1 at a concrete engine run. -/
theorem c1_witness :
    (0 ≤ resW.total_score ∧ resW.total_score ≤ 100) ∧
      (resW.pass_status = true ↔ 80 ≤ resW.total_score) :=
  c1_total_score_range_and_pass_cutoff "service" "billing inquiry" rawW resW
    (by decide)

/-- Claim C2: for every completed job with a non-empty `scored_items` list,
`total_score` equals `round(100 * mean(score) / 5)` computed over all
scored items. -/
theorem c2_total_score_is_rounded_mean (ctype subject : String)
    (raw : List RawScoredItem) (res : AnalysisResult)
    (h : runScoringEngine ctype subject raw = some res)
    (_hne : res.scored_items ≠ []) :
    res.total_score =
      round (100 *
        ((((res.scored_items.map (fun it => it.score)).sum : Int) : ℚ) /
          (res.scored_items.length : ℚ)) / 5) := by
  obtain ⟨items0, _, _, _, hts, _⟩ :=
    runScoringEngine_some ctype subject raw res h
  rw [hts, totalScore_eq_round]
  unfold meanScore sumScores
  rfl

/-- Witness for claim C2 at a concrete engine run. -/
theorem c2_witness :
    resW.total_score =
      round (100 *
        ((((resW.scored_items.map (fun it => it.score)).sum : Int) : ℚ) /
          (resW.scored_items.length : ℚ)) / 5) :=
  c2_total_score_is_rounded_mean "service" "billing inquiry" rawW resW
    (by decide) (by decide)

/-- Claim C3: every `ScoredItem` of a completed result has an integer score
in 1..5, and carries `improvement_guidance` exactly when the score is below
4. -/
theorem c3_scored_item_invariants (ctype subject : String)
    (raw : List RawScoredItem) (res : AnalysisResult)
    (h : runScoringEngine ctype subject raw = some res) :
    ∀ it ∈ res.scored_items,
      (1 ≤ it.score ∧ it.score ≤ 5) ∧
        (it.improvement_guidance.isSome ↔ it.score < 4) := by
  obtain ⟨items0, hv, _, hsi, _, _⟩ :=
    runScoringEngine_some ctype subject raw res h
  rw [hsi]
  intro it hit
  obtain ⟨it0, hit0, rfl⟩ := List.mem_map.mp hit
  obtain ⟨r, hr⟩ := validateAll_mem raw items0 hv it0 hit0
  have hprops := validateItem_some r it0 hr
  exact ⟨by simpa [canonicalizeItem_score] using hprops.1,
    by simpa [canonicalizeItem_score, canonicalizeItem_guidance]
      using hprops.2⟩

/-- Witness for claim C3 at a concrete engine run and item. -/
theorem c3_witness :
    (1 ≤ itemW2.score ∧ itemW2.score ≤ 5) ∧
      (itemW2.improvement_guidance.isSome ↔ itemW2.score < 4) :=
  c3_scored_item_invariants "service" "billing inquiry" rawW resW
    (by decide) itemW2 (by decide)

/-- Claim C4: every persisted scored item's category is a member of the
fixed canonical category set; numbered alias labels resolve to the same
canonical name as their unnumbered form; unrecognized labels are bucketed
under the generic trailing category `"Other"`; and no scored item is lost
(the persisted list has one entry per raw item). -/
theorem c4_categories_canonical_and_preserved (ctype subject : String)
    (raw : List RawScoredItem) (res : AnalysisResult)
    (h : runScoringEngine ctype subject raw = some res) :
    (∀ it ∈ res.scored_items, it.category ∈ canonicalCategories) ∧
      res.scored_items.length = raw.length ∧
      (resolveCategory "1. Core Communication Fundamentals" =
          resolveCategory "Core Communication Fundamentals" ∧
        resolveCategory "2. Consultation & Pitching Focus" =
          resolveCategory "Consultation & Pitching Focus" ∧
        resolveCategory "3. Servicing Focus" =
          resolveCategory "Servicing Focus") ∧
      (∀ c, c ∉ recognizedLabels → resolveCategory c = "Other") := by
  obtain ⟨items0, hv, _, hsi, _, _⟩ :=
    runScoringEngine_some ctype subject raw res h
  refine ⟨?_, ?_, by refine ⟨?_, ?_, ?_⟩ <;> decide,
    fun c hc => resolveCategory_unrecognized c hc⟩
  · rw [hsi]
    intro it hit
    obtain ⟨it0, _, rfl⟩ := List.mem_map.mp hit
    exact resolveCategory_mem it0.category
  · rw [hsi, List.length_map]
    exact validateAll_length raw items0 hv

/-- Witness for claim C4 at a concrete engine run and item. -/
theorem c4_witness :
    itemW2.category ∈ canonicalCategories ∧
      resW.scored_items.length = rawW.length :=
  ⟨(c4_categories_canonical_and_preserved "service" "billing inquiry" rawW
      resW (by decide)).1 itemW2 (by decide),
   (c4_categories_canonical_and_preserved "service" "billing inquiry" rawW
      resW (by decide)).2.1⟩

/- ===================================================================
   Part 4: claim C5 - coaching summary fallback in Results.js.
   =================================================================== -/

/-- A scored item as the frontend receives it in the results JSON
(`Results.js`). -/
structure JsScoredItem where
  category : String
  item : String
  score : Int
  justification : String
  evidence : List String
  improvement_guidance : Option String
deriving DecidableEq

/-- The `summary` object of the results JSON consumed by `Results.js`.
`total_score` is optional because the component guards it with
`summary.total_score || 0`. -/
structure JsSummary where
  conversation_type : String
  subject : String
  total_score : Option Int
  pass_status : Bool
deriving DecidableEq

/-- The slice of the results JSON consumed by the `Results` component. -/
structure JsResults where
  summary : JsSummary
  scored_items : List JsScoredItem
  coaching_summary : Option String
deriving DecidableEq

/-- Embedding of `const percentage = summary.total_score || 0`
(`Results.js` line 237); for an integer field the JS guard maps both a
missing value and 0 to 0. -/
def percentageOf (r : JsResults) : Int := r.summary.total_score.getD 0

/-- Embedding of the score-band conditional of `Results.js` line 371:
`percentage >= 80 ? 'strong' : percentage >= 60 ? 'moderate' :
'developing'`. -/
def scoreBand (pct : Int) : String :=
  if 80 ≤ pct then "strong" else if 60 ≤ pct then "moderate"
  else "developing"

/-- JS `String.prototype.replace` with a string pattern replaces only the
first occurrence; character-level helper for a one-character pattern. -/
def replaceFirstChar (a b : Char) : List Char → List Char
  | [] => []
  | c :: cs => if c = a then b :: cs else c :: replaceFirstChar a b cs

/-- Embedding of `conversation_type?.toLowerCase()?.replace('_', ' ')`
(`Results.js` line 372). -/
def displayedConvType (r : JsResults) : String :=
  ⟨replaceFirstChar '_' ' ' r.summary.conversation_type.toLower.data⟩

/-- Tail of the synthesized overall summary (`Results.js` lines 373-376):
the sentence after the subject, chosen by the same 80-percent cutoff. -/
def synthTail (r : JsResults) : String :=
  ". " ++
  (if 80 ≤ percentageOf r then
    "The interaction met professional standards with effective communication and service delivery."
  else
    "There are several areas requiring improvement to reach optimal performance standards.")

/-- Embedding of the synthesized "Overall Summary" paragraph rendered when
no coaching summary is present (`Results.js` lines 367-379), with JSX
whitespace normalized to single spaces. -/
def synthCoachingText (r : JsResults) : String :=
  "The AM demonstrated a " ++ scoreBand (percentageOf r) ++
  " level of performance in this " ++ displayedConvType r ++
  " conversation focused on " ++ r.summary.subject.toLower ++ synthTail r

/-- Embedding of the narrative the component renders: `Results.js` renders
the model-supplied `coaching_summary` when it is truthy
(`{coaching_summary && ...}`, line 352) and the synthesized template when it
is falsy (`{!coaching_summary && ...}`, line 367); in JS both a missing
value and the empty string are falsy. -/
def displayedCoaching (r : JsResults) : String :=
  match r.coaching_summary with
  | some s => if s = "" then synthCoachingText r else s
  | none => synthCoachingText r

/-- The score band word is "strong" exactly on scores of 80 and above. -/
theorem scoreBand_strong (p : Int) : scoreBand p = "strong" ↔ 80 ≤ p := by
  unfold scoreBand
  split_ifs with h1 h2 <;> simp_all

/-- The score band word is "moderate" exactly on scores in 60..79. -/
theorem scoreBand_moderate (p : Int) :
    scoreBand p = "moderate" ↔ (60 ≤ p ∧ p < 80) := by
  unfold scoreBand
  split_ifs with h1 h2 <;> simp_all

/-- The score band word is "developing" exactly on scores below 60. -/
theorem scoreBand_developing (p : Int) :
    scoreBand p = "developing" ↔ p < 60 := by
  unfold scoreBand
  split_ifs with h1 h2 <;> simp_all
  omega

/-- The synthesized narrative is never the empty string. -/
theorem synthCoachingText_ne_empty (r : JsResults) :
    synthCoachingText r ≠ "" := by
  intro h
  have hlen := congrArg String.length h
  simp only [synthCoachingText, String.length_append] at hlen
  have hpos : 0 < String.length "The AM demonstrated a " := by decide
  have h0 : String.length "" = 0 := rfl
  omega

/-- Results object with a present-but-empty model-supplied coaching
summary. -/
def rEmptyCoaching : JsResults :=
  ⟨⟨"service", "Billing Dispute", some 85, true⟩, [], some ""⟩

/-- Counterexample to claim C5 as stated: on this result the model-supplied
`coaching_summary` is present (the empty string), yet the component does
not use it - it renders the synthesized template instead, because the JS
truthiness test treats the empty string as absent. -/
theorem c5_counterexample :
    rEmptyCoaching.coaching_summary = some "" ∧
      displayedCoaching rEmptyCoaching ≠ "" ∧
      displayedCoaching rEmptyCoaching = synthCoachingText rEmptyCoaching := by
  refine ⟨rfl, ?_, rfl⟩
  exact synthCoachingText_ne_empty rEmptyCoaching

/-- Claim C5 (amended): when the results object carries no usable
`coaching_summary` - the field is absent, or it is supplied as the empty
string, which the component's JS truthiness test treats as absent - the
component renders a non-empty synthesized narrative whose band word
matches the computed score (strong iff >= 80, moderate iff 60..79,
developing otherwise) and which incorporates the conversation type and
subject; a present and NON-EMPTY model-supplied `coaching_summary` is
rendered instead. -/
theorem c5_coaching_fallback (r : JsResults) :
    ((r.coaching_summary = none ∨ r.coaching_summary = some "") →
      displayedCoaching r = synthCoachingText r) ∧
    synthCoachingText r ≠ "" ∧
    (scoreBand (percentageOf r) = "strong" ↔ 80 ≤ percentageOf r) ∧
    (scoreBand (percentageOf r) = "moderate" ↔
      (60 ≤ percentageOf r ∧ percentageOf r < 80)) ∧
    (scoreBand (percentageOf r) = "developing" ↔ percentageOf r < 60) ∧
    (∃ p q t : String, synthCoachingText r =
      p ++ displayedConvType r ++ q ++ r.summary.subject.toLower ++ t) ∧
    (∀ s, r.coaching_summary = some s → s ≠ "" →
      displayedCoaching r = s) := by
  refine ⟨?_, synthCoachingText_ne_empty r, scoreBand_strong _,
    scoreBand_moderate _, scoreBand_developing _, ?_, ?_⟩
  · intro h
    rcases h with h | h <;> simp [displayedCoaching, h]
  · exact ⟨"The AM demonstrated a " ++ scoreBand (percentageOf r) ++
      " level of performance in this ", " conversation focused on ",
      synthTail r, rfl⟩
  · intro s hs hne
    simp [displayedCoaching, hs, hne]

/-- Results object with no coaching summary at all. -/
def rNoCoaching : JsResults :=
  ⟨⟨"service", "Billing Dispute", some 85, true⟩, [], none⟩

/-- Witness for claim C5 at two concrete results, one with the coaching
summary absent and one with it supplied as the empty string. -/
theorem c5_witness :
    displayedCoaching rNoCoaching = synthCoachingText rNoCoaching ∧
      displayedCoaching rEmptyCoaching = synthCoachingText rEmptyCoaching ∧
      synthCoachingText rNoCoaching ≠ "" ∧
      (scoreBand (percentageOf rNoCoaching) = "strong" ↔
        80 ≤ percentageOf rNoCoaching) :=
  ⟨(c5_coaching_fallback rNoCoaching).1 (Or.inl rfl),
   (c5_coaching_fallback rEmptyCoaching).1 (Or.inr rfl),
   (c5_coaching_fallback rNoCoaching).2.1,
   (c5_coaching_fallback rNoCoaching).2.2.1⟩

/- ===================================================================
   Part 5: claim C6 - upload validation in Upload.js.
   =================================================================== -/

/-- The dropzone `accept` map of `Upload.js` lines 63-69: each entry
pairs a MIME pattern (exact type or `type/*` wildcard) with a list of
dotted file extensions. -/
def dropzoneAccept : List (String × List String) :=
  [("audio/*", [".mp3", ".wav", ".m4a"]),
   ("video/*", [".mp4", ".avi", ".mov"]),
   ("application/pdf", [".pdf"]),
   ("application/vnd.openxmlformats-officedocument.wordprocessingml.document",
    [".docx"]),
   ("text/plain", [".txt"]),
   ("image/*", [".png", ".jpg", ".jpeg"])]

/-- The hard-coded size limit `100 * 1024 * 1024` of `Upload.js`
line 20. -/
def maxUploadSize : Nat := 100 * 1024 * 1024

/-- An upload candidate: its browser-reported MIME type, its lower-cased
dotted filename extension, and its byte size. -/
structure UploadFile where
  mime : String
  ext : String
  size : Nat
deriving DecidableEq

/-- The part of a MIME type before the first slash (attr-accept's
`mimeType.replace` with the slash-to-end pattern). -/
def mimeBase (m : String) : String :=
  ⟨m.data.takeWhile (fun c => c ≠ '/')⟩

/-- Whether an accept entry is a wildcard MIME pattern such as
`audio/*`. -/
def endsWithSlashStar (p : String) : Bool :=
  match p.data.reverse with
  | '*' :: '/' :: _ => true
  | _ => false

/-- attr-accept's MIME comparison: a `type/*` wildcard entry matches any
MIME type with the same base type; any other entry must match the MIME
type exactly. -/
def mimeEntryMatches (entry mime : String) : Bool :=
  if endsWithSlashStar entry then decide (mimeBase entry = mimeBase mime)
  else decide (entry = mime)

/-- What the upload flow does with a dropped file: shows a rejection toast
(no network request), or issues the `POST /api/upload` request. -/
inductive UploadAction where
  | rejected (msg : String)
  | requested
deriving DecidableEq

/-- Embedding of the `onDrop` handler (`Upload.js` lines 11-39): with no
accepted file it shows an error toast and returns; with an oversized file
it shows an error toast and returns; otherwise it posts the upload
request. -/
def onDrop (acceptedFiles : List UploadFile) : UploadAction :=
  match acceptedFiles with
  | [] => .rejected "Please select a valid file"
  | file :: _ =>
    if maxUploadSize < file.size then
      .rejected "File size too large. Maximum size is 100MB."
    else .requested

/-- The dropzone accepts a file exactly when some entry of the configured
`accept` map matches it (`useDropzone accept`, `Upload.js` lines 61-73):
react-dropzone delegates to attr-accept, which ORs over the flattened
criteria, so a file is accepted when its MIME type matches one of the
MIME patterns OR its extension is one of the listed extensions. -/
def dropzoneAccepts (f : UploadFile) : Bool :=
  dropzoneAccept.any (fun entry =>
    mimeEntryMatches entry.1 f.mime ||
    entry.2.any (fun e => decide (f.ext = e)))

/-- The whole client-side upload flow: the dropzone filters by extension
(a non-accepted file reaches `onDrop` with an empty accepted list), then
`onDrop` validates the size. -/
def uploadFlow (f : UploadFile) : UploadAction :=
  onDrop (if dropzoneAccepts f then [f] else [])

/-- A job can only be created by the backend in response to an issued
upload request; a rejected upload issues none. -/
def createsJob : UploadAction → Bool
  | .requested => true
  | .rejected _ => false

/-- Claim C6: every upload whose file type fails the configured
allow-list - its MIME type matches none of the accept patterns and its
extension is in none of the accept extension lists, attr-accept's OR
semantics - or whose size exceeds the 100 MB limit, is rejected with an
error message, no upload request is issued, and hence no job is
created. -/
theorem c6_invalid_upload_rejected (f : UploadFile)
    (h : (∀ entry ∈ dropzoneAccept,
        mimeEntryMatches entry.1 f.mime = false ∧ f.ext ∉ entry.2) ∨
      maxUploadSize < f.size) :
    (∃ msg, uploadFlow f = .rejected msg) ∧
      uploadFlow f ≠ .requested ∧
      createsJob (uploadFlow f) = false := by
  have hcase : uploadFlow f = .rejected "Please select a valid file" ∨
      uploadFlow f =
        .rejected "File size too large. Maximum size is 100MB." := by
    rcases h with hrej | hsize
    · left
      have hacc : dropzoneAccepts f = false := by
        unfold dropzoneAccepts
        rw [List.any_eq_false]
        intro entry hentry
        obtain ⟨hm, hx⟩ := hrej entry hentry
        simp only [hm, Bool.false_or]
        rw [Bool.not_eq_true, List.any_eq_false]
        intro e he
        simp only [decide_eq_true_eq]
        intro hEq
        exact hx (hEq ▸ he)
      unfold uploadFlow
      rw [hacc]
      rfl
    · by_cases hacc : dropzoneAccepts f = true
      · right
        unfold uploadFlow
        rw [hacc]
        simp [onDrop, hsize]
      · left
        rw [Bool.not_eq_true] at hacc
        unfold uploadFlow
        rw [hacc]
        rfl
  rcases hcase with hc | hc <;>
    exact ⟨⟨_, hc⟩, by simp [hc], by simp [hc, createsJob]⟩

/-- Witness for claim C6: an `.exe` upload (scenario B of the spec); its
MIME type matches no accept pattern and its extension is listed
nowhere. -/
theorem c6_witness :
    (∃ msg,
        uploadFlow ⟨"application/x-msdownload", ".exe", 1000⟩ =
          .rejected msg) ∧
      uploadFlow ⟨"application/x-msdownload", ".exe", 1000⟩ ≠
        .requested ∧
      createsJob (uploadFlow ⟨"application/x-msdownload", ".exe", 1000⟩) =
        false :=
  c6_invalid_upload_rejected ⟨"application/x-msdownload", ".exe", 1000⟩
    (Or.inl (by decide))

/- ===================================================================
   Part 6: claim C7 - transcription fallback (modelled from the spec).
   =================================================================== -/

/-- Modelled from the spec: which speech-to-text providers are configured
(`TRANSCRIPTION_SETUP.md` "Priority Order"; the backend dispatcher itself
is not under `src/`). -/
structure SttConfig where
  googleConfigured : Bool
  openaiConfigured : Bool
deriving DecidableEq

/-- Modelled from the spec: the outcome of one provider attempt (a timeout
counts as a failure, spec section 4.2). -/
inductive SttOutcome where
  | ok (text : String)
  | failure
deriving DecidableEq

/-- Modelled from the spec: the deterministic, clearly-labeled placeholder
transcript of `TRANSCRIPTION_SETUP.md` ("Realistic Demo Transcript -
always available"); a fixed string, independent of the uploaded audio. -/
def demoTranscript : String :=
  "[Demo transcript] Agent: Good morning, thank you for calling. Customer: Hello, I would like to review my account."

/-- Modelled from the spec: the audio transcription dispatcher with its
fallback chain (`TRANSCRIPTION_SETUP.md` Priority Order: Google
Speech-to-Text if configured, then OpenAI Whisper if configured, then the
demo transcript, which is always available).  An unconfigured provider is
never attempted; a configured provider that fails falls through to the
next element of the chain. -/
def dispatchTranscription (cfg : SttConfig)
    (googleRes openaiRes : SttOutcome) : String :=
  match (if cfg.googleConfigured then googleRes else .failure) with
  | .ok t => t
  | .failure =>
    match (if cfg.openaiConfigured then openaiRes else .failure) with
    | .ok t => t
    | .failure => demoTranscript

/-- Job lifecycle states (spec section 3). -/
inductive JobStatus where
  | uploaded
  | extracting
  | analyzing
  | completed
  | failed
deriving DecidableEq

/-- Modelled from the spec: processing of an uploaded audio file
(spec sections 4.2 and 4.3).  Extraction for audio never fails - the
dispatcher is a total function thanks to the demo-transcript fallback - so
the job's fate depends only on the scoring stage, whose external LLM
response is the `raw` input. -/
def processAudioJob (cfg : SttConfig) (googleRes openaiRes : SttOutcome)
    (ctype subject : String) (raw : List RawScoredItem) :
    JobStatus × String × Option AnalysisResult :=
  let transcript := dispatchTranscription cfg googleRes openaiRes
  match runScoringEngine ctype subject raw with
  | some res => (.completed, transcript, some res)
  | none => (.failed, transcript, none)

/-- Claim C7: with no speech-to-text provider configured, an audio upload
is transcribed to the deterministic placeholder transcript whatever the
provider outcomes would have been, and the job still reaches `completed`
(it never fails merely because provider configuration is missing: the
scoring stage behaves exactly as with any other transcript). -/
theorem c7_no_provider_fallback (googleRes openaiRes : SttOutcome)
    (ctype subject : String) (raw : List RawScoredItem)
    (res : AnalysisResult)
    (h : runScoringEngine ctype subject raw = some res) :
    dispatchTranscription ⟨false, false⟩ googleRes openaiRes =
        demoTranscript ∧
      processAudioJob ⟨false, false⟩ googleRes openaiRes ctype subject raw =
        (JobStatus.completed, demoTranscript, some res) := by
  have hd : dispatchTranscription ⟨false, false⟩ googleRes openaiRes =
      demoTranscript := rfl
  refine ⟨hd, ?_⟩
  unfold processAudioJob
  rw [h, hd]

/-- Witness for claim C7 at a concrete engine run with failing provider
outcomes. -/
theorem c7_witness :
    dispatchTranscription ⟨false, false⟩ .failure .failure =
        demoTranscript ∧
      processAudioJob ⟨false, false⟩ .failure .failure "service"
          "billing inquiry" rawW =
        (JobStatus.completed, demoTranscript, some resW) :=
  c7_no_provider_fallback .failure .failure "service" "billing inquiry"
    rawW resW (by decide)

/- ===================================================================
   Part 7: claim C8 - status polling in Status.js.
   =================================================================== -/

/-- The terminal job statuses (`Status.js` line 45 checks exactly these
two). -/
def isTerminal (s : String) : Bool := s = "completed" || s = "failed"

/-- State of the polling machinery of the `Status` component between
status responses.  The component's effect has dependency array
`[jobId, navigate, status?.status]` (`Status.js` line 53):

* `start captured` - the effect (re)runs because `status?.status` changed
  to `captured`: it immediately calls `checkStatus()` (line 41) and then
  installs a 2-second interval whose callback closes over the `status`
  value of that render (a stale closure).
* `tick captured` - the installed interval is live; each tick first tests
  the captured `status?.status` against the terminal states and clears
  itself without a request if it is terminal (lines 45-48); otherwise it
  calls `checkStatus()`. -/
inductive PollMode where
  | start (captured : Option String)
  | tick (captured : String)
deriving DecidableEq

/-- Embedding of the polling loop of `Status.js` (lines 12-53), driven by
the script of backend status responses (one response per issued
`GET /api/status` request; requests and responses are serialized).  The
returned list is the sequence of responses observed, one entry per request
issued.  A response different from the captured `status?.status` changes
the effect dependency, so the effect cleanup clears the interval and the
effect re-runs (`start` with the new capture); an equal response leaves the
interval ticking on its stale capture.  Component unmount (the navigation
to the results page) only truncates the trace, so the model is an upper
bound on the requests issued. -/
def pollTrace : PollMode → List String → List String
  | _, [] => []
  | .start captured, r :: rest =>
    r :: pollTrace (if captured = some r then .tick r else .start (some r))
      rest
  | .tick c, r :: rest =>
    if isTerminal c then []
    else r :: pollTrace (if r = c then .tick c else .start (some r)) rest

/-- Number of requests issued strictly after the first response showing a
terminal status. -/
def requestsAfterFirstTerminal : List String → Nat
  | [] => 0
  | r :: rest =>
    if isTerminal r then rest.length else requestsAfterFirstTerminal rest

/-- A poll mode whose captured status is not terminal (the only modes
reachable before a terminal response arrives). -/
def goodMode : PollMode → Prop
  | .start none => True
  | .start (some c) => isTerminal c = false
  | .tick c => isTerminal c = false

/-- A live interval whose stale capture is terminal clears itself without
issuing any request. -/
theorem pollTrace_tick_terminal (t : String) (ht : isTerminal t = true)
    (l : List String) : pollTrace (.tick t) l = [] := by
  cases l with
  | nil => rfl
  | cons r rest => simp [pollTrace, ht]

/-- After the effect re-runs with a terminal capture and the backend keeps
answering that same status, at most one request is issued (the effect's
immediate `checkStatus()`), and then the interval clears itself. -/
theorem pollTrace_start_terminal (t : String) (ht : isTerminal t = true)
    (k : Nat) :
    (pollTrace (.start (some t)) (List.replicate k t)).length ≤ 1 := by
  cases k with
  | zero => simp [pollTrace]
  | succ k =>
    rw [List.replicate_succ]
    simp [pollTrace, pollTrace_tick_terminal t ht]

/-- Once only the fixed terminal status `t` remains in the response
script, a trace beginning in any pre-terminal mode contains at most one
request after its first terminal response. -/
theorem pollTrace_replicate_bound (t : String) (ht : isTerminal t = true)
    (n : Nat) (m : PollMode) (hm : goodMode m) :
    requestsAfterFirstTerminal (pollTrace m (List.replicate n t)) ≤ 1 := by
  cases n with
  | zero =>
    cases m <;> simp [pollTrace, requestsAfterFirstTerminal]
  | succ k =>
    cases m with
    | start captured =>
      have hne : captured ≠ some t := by
        cases captured with
        | none => simp
        | some c =>
          intro heq
          have hc : c = t := by simpa using heq
          rw [goodMode, hc] at hm
          rw [hm] at ht
          exact Bool.false_ne_true ht
      rw [List.replicate_succ]
      have hun : pollTrace (.start captured) (t :: List.replicate k t) =
          t :: pollTrace (.start (some t)) (List.replicate k t) := by
        simp [pollTrace, hne]
      rw [hun]
      have hlen := pollTrace_start_terminal t ht k
      simp [requestsAfterFirstTerminal, ht]
      omega
    | tick c =>
      have hcf : isTerminal c = false := hm
      have htc : t ≠ c := by
        intro heq
        rw [heq, hcf] at ht
        exact Bool.false_ne_true ht
      rw [List.replicate_succ]
      have hun : pollTrace (.tick c) (t :: List.replicate k t) =
          t :: pollTrace (.start (some t)) (List.replicate k t) := by
        simp [pollTrace, hcf, htc]
      rw [hun]
      have hlen := pollTrace_start_terminal t ht k
      simp [requestsAfterFirstTerminal, ht]
      omega

/-- Generalization of the amended claim over every pre-terminal mode: as
long as the responses before the terminal phase are non-terminal and the
terminal phase repeats one fixed terminal status, at most one request
follows the first terminal response. -/
theorem pollTrace_bound (t : String) (ht : isTerminal t = true)
    (pre : List String) (hpre : ∀ r ∈ pre, isTerminal r = false)
    (m : PollMode) (hm : goodMode m) (n : Nat) :
    requestsAfterFirstTerminal
      (pollTrace m (pre ++ List.replicate n t)) ≤ 1 := by
  induction pre generalizing m with
  | nil => simpa using pollTrace_replicate_bound t ht n m hm
  | cons r pre ih =>
    have hr : isTerminal r = false := hpre r (List.mem_cons_self r pre)
    have hpre' : ∀ x ∈ pre, isTerminal x = false := fun x hx =>
      hpre x (List.mem_cons_of_mem r hx)
    cases m with
    | start captured =>
      rw [List.cons_append]
      have hun : pollTrace (.start captured)
            (r :: (pre ++ List.replicate n t)) =
          r :: pollTrace
            (if captured = some r then .tick r else .start (some r))
            (pre ++ List.replicate n t) := by
        simp [pollTrace]
      rw [hun]
      have hstep : ∀ X, requestsAfterFirstTerminal (r :: X) =
          requestsAfterFirstTerminal X := by
        intro X
        simp [requestsAfterFirstTerminal, hr]
      rw [hstep]
      by_cases hc : captured = some r
      · rw [if_pos hc]
        exact ih hpre' (.tick r) hr
      · rw [if_neg hc]
        exact ih hpre' (.start (some r)) hr
    | tick c =>
      have hcf : isTerminal c = false := hm
      rw [List.cons_append]
      have hun : pollTrace (.tick c) (r :: (pre ++ List.replicate n t)) =
          r :: pollTrace (if r = c then .tick c else .start (some r))
            (pre ++ List.replicate n t) := by
        simp [pollTrace, hcf]
      rw [hun]
      have hstep : ∀ X, requestsAfterFirstTerminal (r :: X) =
          requestsAfterFirstTerminal X := by
        intro X
        simp [requestsAfterFirstTerminal, hr]
      rw [hstep]
      by_cases hrc : r = c
      · rw [if_pos hrc]
        exact ih hpre' (.tick c) hcf
      · rw [if_neg hrc]
        exact ih hpre' (.start (some r)) hr

/-- Counterexample to claim C8 as stated: on the response script
`analyzing, completed, completed, completed` the client issues exactly one
further `GET /api/status` request after the poll that first observes the
terminal status - when `status?.status` changes to `completed` the effect
re-runs and its unconditional initial `checkStatus()` (`Status.js`
line 41) fires before the new interval's terminal check can stop
anything.  The claim demands zero such requests. -/
theorem c8_counterexample :
    requestsAfterFirstTerminal
        (pollTrace (.start none)
          ["analyzing", "completed", "completed", "completed"]) = 1 ∧
      requestsAfterFirstTerminal
        (pollTrace (.start none)
          ["analyzing", "completed", "completed", "completed"]) ≠ 0 := by
  constructor <;> decide

/-- Claim C8 (amended): after a status poll first observes a terminal
state, the client issues at most one further `GET /api/status` request
(the immediate re-check of the re-run effect) and then stops polling -
provided the backend keeps reporting the same terminal status, as terminal
job records are immutable. -/
theorem c8_polling_stops (pre : List String) (t : String) (n : Nat)
    (ht : isTerminal t = true)
    (hpre : ∀ r ∈ pre, isTerminal r = false) :
    requestsAfterFirstTerminal
      (pollTrace (.start none) (pre ++ List.replicate n t)) ≤ 1 :=
  pollTrace_bound t ht pre hpre (.start none) trivial n

/-- Witness for claim C8 on a concrete upload-to-completion response
script. -/
theorem c8_witness :
    requestsAfterFirstTerminal
      (pollTrace (.start none)
        (["uploaded", "extracting", "analyzing"] ++
          List.replicate 3 "completed")) ≤ 1 :=
  c8_polling_stops ["uploaded", "extracting", "analyzing"] "completed" 3
    (by decide) (by decide)

/- ===================================================================
   Part 8: claim C9 - downloadResults in Results.js.
   =================================================================== -/

/-- Observable effects of one `downloadResults(format)` call
(`Results.js` lines 33-179): saving a file with the given extension,
opening the print dialog (the `pdf` branch), or firing a toast. -/
inductive DlEvent where
  | savedFile (ext : String)
  | printDialog
  | toastSuccess (msg : String)
deriving DecidableEq

/-- An event that actually produces an artifact for the user (a saved file
or the print dialog), as opposed to a mere notification. -/
def isArtifact : DlEvent → Bool
  | .savedFile _ => true
  | .printDialog => true
  | .toastSuccess _ => false

/-- Embedding of `downloadResults` (`Results.js` lines 33-179): with no
results it returns immediately; otherwise the `txt`, `json` and `csv`
branches save a file, the `pdf` branch opens a print window, any other
format matches no branch, and in every case the trailing
`toast.success` of line 178 fires with the upper-cased format name.  The
date-stamped part of the saved filename depends on the wall clock and is
elided; only the extension is recorded. -/
def downloadResults (format : String) (results : Option JsResults) :
    List DlEvent :=
  match results with
  | none => []
  | some _ =>
    (if format = "txt" then [DlEvent.savedFile ".txt"]
     else if format = "json" then [DlEvent.savedFile ".json"]
     else if format = "csv" then [DlEvent.savedFile ".csv"]
     else if format = "pdf" then [DlEvent.printDialog]
     else []) ++
    [DlEvent.toastSuccess ("Analysis downloaded as " ++ format.toUpper)]

/-- The formats offered by the download buttons of `Results.js`
lines 642-671, in button order. -/
def downloadButtonFormats : List String := ["pdf", "doc", "docx", "txt"]

/-- The formats `downloadResults` actually implements. -/
def handledFormats : List String := ["txt", "json", "csv", "pdf"]

/-- Claim C9: for a format outside the handled set - including the `doc`
and `docx` formats offered by the download buttons - `downloadResults`
produces no artifact at all, yet still fires the success toast
"Analysis downloaded as FORMAT"; and the success toast fires on every
invocation with non-null results, whatever the format. -/
theorem c9_download_toast_unconditional (format : String) (r : JsResults)
    (h : format ∉ handledFormats) :
    (∀ e ∈ downloadResults format (some r), isArtifact e = false) ∧
      DlEvent.toastSuccess ("Analysis downloaded as " ++ format.toUpper) ∈
        downloadResults format (some r) ∧
      ("doc" ∈ downloadButtonFormats ∧ "doc" ∉ handledFormats) ∧
      ("docx" ∈ downloadButtonFormats ∧ "docx" ∉ handledFormats) ∧
      (∀ fmt : String,
        DlEvent.toastSuccess ("Analysis downloaded as " ++ fmt.toUpper) ∈
          downloadResults fmt (some r)) := by
  simp only [handledFormats, List.mem_cons, List.not_mem_nil, or_false,
    not_or] at h
  obtain ⟨h1, h2, h3, h4⟩ := h
  have hnone : downloadResults format (some r) =
      [DlEvent.toastSuccess ("Analysis downloaded as " ++ format.toUpper)] := by
    unfold downloadResults
    simp [h1, h2, h3, h4]
  refine ⟨?_, ?_, by decide, by decide, ?_⟩
  · rw [hnone]
    intro e he
    rw [List.mem_singleton.mp he]
    rfl
  · rw [hnone]
    exact List.mem_singleton.mpr rfl
  · intro fmt
    unfold downloadResults
    by_cases f1 : fmt = "txt"
    · simp [f1]
    · by_cases f2 : fmt = "json"
      · simp [f1, f2]
      · by_cases f3 : fmt = "csv"
        · simp [f1, f2, f3]
        · by_cases f4 : fmt = "pdf"
          · simp [f1, f2, f3, f4]
          · simp [f1, f2, f3, f4]

/-- Witness for claim C9 at the `doc` button's invocation. -/
theorem c9_witness :
    (∀ e ∈ downloadResults "doc" (some rNoCoaching), isArtifact e = false) ∧
      DlEvent.toastSuccess ("Analysis downloaded as " ++ "doc".toUpper) ∈
        downloadResults "doc" (some rNoCoaching) :=
  ⟨(c9_download_toast_unconditional "doc" rNoCoaching (by decide)).1,
   (c9_download_toast_unconditional "doc" rNoCoaching (by decide)).2.1⟩

/- ===================================================================
   Part 9: claim C10 - CSV export round-trip (Results.js csv branch).
   =================================================================== -/

/-- Character-level embedding of `String(cell).replace(/"/g, '""')`
(`Results.js` line 127): every double quote of the cell is doubled. -/
def jsEscapeQuotes : List Char → List Char
  | [] => []
  | c :: cs =>
    if c = '"' then '"' :: ('"' :: jsEscapeQuotes cs)
    else c :: jsEscapeQuotes cs

/-- One CSV cell as the csv branch builds it: the escaped cell wrapped in
double quotes (`Results.js` line 127). -/
def csvCell (s : String) : String :=
  ⟨'"' :: (jsEscapeQuotes s.data ++ ['"'])⟩

/-- Embedding of JS `Array.prototype.join(sep)`. -/
def joinSep (sep : String) : List String → String
  | [] => ""
  | [x] => x
  | x :: xs => x ++ sep ++ joinSep sep xs

/-- The fixed six-column header row (`Results.js` line 115). -/
def csvHeader : List String :=
  ["Category", "Item", "Score", "Justification", "Evidence",
   "Improvement Guidance"]

/-- One data row per scored item (`Results.js` lines 116-123): category,
item, the score coerced to a string, justification, the evidence strings
joined by "; ", and the guidance or the empty string. -/
def csvRow (it : JsScoredItem) : List String :=
  [it.category, it.item, toString it.score, it.justification,
   joinSep "; " it.evidence, it.improvement_guidance.getD ""]

/-- The rows of the export: the header row plus one row per scored item
(`Results.js` lines 114-124). -/
def csvRows (items : List JsScoredItem) : List (List String) :=
  csvHeader :: items.map csvRow

/-- The produced CSV text (`Results.js` lines 126-128): every cell quoted
and escaped, cells joined by commas, rows joined by newlines. -/
def csvContent (items : List JsScoredItem) : String :=
  joinSep "\n"
    ((csvRows items).map (fun row => joinSep "," (row.map csvCell)))

/-- Modelled from the claim's words: a parser implementing standard CSV
quoting rules (RFC 4180 style), against which the escape/parse round-trip
is stated.  `parseQuotedBody` parses the inside of a quoted field, the
input starting just after the opening quote: a doubled quote is a literal
quote, a lone quote closes the field, and every other character (commas
and newlines included) is literal.  Returns the field text and the input
after the closing quote. -/
def parseQuotedBody : List Char → Option (List Char × List Char)
  | [] => none
  | c :: rest =>
    if c = '"' then
      match rest with
      | [] => some ([], [])
      | c2 :: rest2 =>
        if c2 = '"' then
          (parseQuotedBody rest2).map (fun p => ('"' :: p.1, p.2))
        else some ([], c2 :: rest2)
    else (parseQuotedBody rest).map (fun p => (c :: p.1, p.2))

/-- An unquoted CSV field: literal characters up to the next comma or
newline. -/
def parseUnquoted : List Char → List Char × List Char
  | [] => ([], [])
  | c :: rest =>
    if c = ',' ∨ c = '\n' then ([], c :: rest)
    else
      let p := parseUnquoted rest
      (c :: p.1, p.2)

/-- One CSV field: quoted when it starts with a double quote, unquoted
otherwise. -/
def parseFieldStart : List Char → Option (List Char × List Char)
  | [] => some ([], [])
  | c :: body =>
    if c = '"' then parseQuotedBody body
    else some (parseUnquoted (c :: body))

/-- The fields of one CSV record: fields separated by commas until a
newline (which ends the record) or the end of input.  The fuel bounds the
number of fields. -/
def parseFields : Nat → List Char → Option (List (List Char) × List Char)
  | 0, _ => none
  | fuel + 1, input =>
    match parseFieldStart input with
    | none => none
    | some (f, rest) =>
      match rest with
      | [] => some ([f], [])
      | c :: rest2 =>
        if c = ',' then
          (parseFields fuel rest2).map (fun p => (f :: p.1, p.2))
        else if c = '\n' then some ([f], rest2)
        else none

/-- The records of a CSV document.  The fuel bounds the number of
records. -/
def parseRecords : Nat → List Char → Option (List (List (List Char)))
  | 0, input => if input = [] then some [] else none
  | fuel + 1, input =>
    if input = [] then some []
    else
      match parseFields (fuel + 1) input with
      | none => none
      | some (fs, rest2) =>
        (parseRecords fuel rest2).map (fun rs => fs :: rs)

/-- Modelled from the claim's words: parse a CSV document under standard
quoting rules into its records of fields.  The fuel is one more than the
text length, which is enough for any record or field count. -/
def parseCsv (s : String) : Option (List (List String)) :=
  (parseRecords (s.data.length + 1) s.data).map
    (fun rs => rs.map (fun row => row.map (fun f => (⟨f⟩ : String))))

/-- Parsing an escaped field body recovers the original cell text exactly,
provided the character after the closing quote is not another quote (in
generated CSV it is a comma, a newline, or the end of input). -/
theorem parseQuotedBody_escape (s : List Char) :
    ∀ rest : List Char, rest.head? ≠ some '"' →
      parseQuotedBody (jsEscapeQuotes s ++ ('"' :: rest)) = some (s, rest) := by
  induction s with
  | nil =>
    intro rest h
    cases rest with
    | nil => rfl
    | cons c2 r2 =>
      have hc2 : c2 ≠ '"' := by simpa using h
      simp [jsEscapeQuotes, parseQuotedBody, hc2]
  | cons c cs ih =>
    intro rest h
    by_cases hc : c = '"'
    · subst hc
      simp [jsEscapeQuotes, parseQuotedBody, ih rest h]
    · simp only [jsEscapeQuotes, hc, if_false, List.cons_append]
      rw [parseQuotedBody.eq_def]
      simp [hc, ih rest h]

/-- Character-level form of a generated quoted cell. -/
def fieldChars (f : List Char) : List Char :=
  '"' :: (jsEscapeQuotes f ++ ['"'])

/-- Character-level form of a generated record: quoted cells joined by
commas. -/
def recChars : List (List Char) → List Char
  | [] => []
  | [f] => fieldChars f
  | f :: fs => fieldChars f ++ (',' :: recChars fs)

/-- Character-level form of the generated document: records joined by
newlines. -/
def csvChars : List (List (List Char)) → List Char
  | [] => []
  | [row] => recChars row
  | row :: rows => recChars row ++ ('\n' :: csvChars rows)

/-- A generated quoted cell parses back to the original text, provided the
following character is not a quote. -/
theorem parseFieldStart_fieldChars (f : List Char) (rest : List Char)
    (h : rest.head? ≠ some '"') :
    parseFieldStart (fieldChars f ++ rest) = some (f, rest) := by
  have hshape : fieldChars f ++ rest =
      '"' :: (jsEscapeQuotes f ++ ('"' :: rest)) := by
    simp [fieldChars]
  rw [hshape, parseFieldStart]
  simp [parseQuotedBody_escape f rest h]

/-- A generated record parses back to its list of cells; the remainder of
the input after the record separator is returned unchanged. -/
theorem parseFields_recChars (fields : List (List Char)) :
    ∀ (fuel : Nat) (rest rest' : List Char), fields ≠ [] →
      fields.length ≤ fuel →
      ((rest = [] ∧ rest' = []) ∨ rest = '\n' :: rest') →
      parseFields fuel (recChars fields ++ rest) = some (fields, rest') := by
  induction fields with
  | nil => intro fuel rest rest' hne; exact absurd rfl hne
  | cons f fs ih =>
    intro fuel rest rest' _ hlen hend
    have hrest_head : rest.head? ≠ some '"' := by
      rcases hend with ⟨h1, _⟩ | h1 <;> rw [h1] <;> simp
    obtain ⟨fuel0, rfl⟩ : ∃ fuel0, fuel = fuel0 + 1 := by
      cases fuel with
      | zero => simp at hlen
      | succ k => exact ⟨k, rfl⟩
    cases fs with
    | nil =>
      have hshape : recChars [f] ++ rest = fieldChars f ++ rest := rfl
      rw [hshape, parseFields, parseFieldStart_fieldChars f rest hrest_head]
      rcases hend with ⟨h1, h2⟩ | h1
      · rw [h1, h2]
      · rw [h1]
        simp
    | cons g gs =>
      have hshape : recChars (f :: g :: gs) ++ rest =
          fieldChars f ++ (',' :: (recChars (g :: gs) ++ rest)) := by
        simp [recChars]
      have hhead : (',' :: (recChars (g :: gs) ++ rest)).head? ≠
          some '"' := by simp
      rw [hshape, parseFields,
        parseFieldStart_fieldChars f _ hhead]
      have hfs : parseFields fuel0 (recChars (g :: gs) ++ rest) =
          some (g :: gs, rest') := by
        apply ih fuel0 rest rest' (by simp)
        · have : (f :: g :: gs).length = (g :: gs).length + 1 := rfl
          omega
        · exact hend
      simp [hfs]

/-- Fuel sufficient to parse a document: one unit per record plus the
widest record's field count. -/
def recordsFuel : List (List (List Char)) → Nat
  | [] => 0
  | row :: rows => 1 + max row.length (recordsFuel rows)

/-- A generated non-empty record starts with a double quote. -/
theorem recChars_cons_quote (f : List Char) (fs : List (List Char)) :
    ∃ t, recChars (f :: fs) = '"' :: t := by
  cases fs with
  | nil => exact ⟨_, rfl⟩
  | cons g gs => exact ⟨_, rfl⟩

/-- The empty input parses to no records under any fuel. -/
theorem parseRecords_nil (fuel : Nat) : parseRecords fuel [] = some [] := by
  cases fuel <;> simp [parseRecords]

/-- A generated document parses back to its list of records, given enough
fuel and rows that each have at least one field. -/
theorem parseRecords_csvChars (rows : List (List (List Char))) :
    ∀ fuel : Nat, (∀ row ∈ rows, row ≠ []) → recordsFuel rows ≤ fuel →
      parseRecords fuel (csvChars rows) = some rows := by
  induction rows with
  | nil =>
    intro fuel _ _
    exact parseRecords_nil fuel
  | cons row rows ih =>
    intro fuel hne hfuel
    have hrow : row ≠ [] := hne row (List.mem_cons_self row rows)
    obtain ⟨f, fs, rfl⟩ : ∃ f fs, row = f :: fs := by
      cases row with
      | nil => exact absurd rfl hrow
      | cons f fs => exact ⟨f, fs, rfl⟩
    obtain ⟨fuel0, rfl⟩ : ∃ k, fuel = k + 1 := by
      cases fuel with
      | zero => simp [recordsFuel] at hfuel
      | succ k => exact ⟨k, rfl⟩
    have hmax : max (f :: fs).length (recordsFuel rows) ≤ fuel0 := by
      rw [recordsFuel] at hfuel
      omega
    have hfa : (f :: fs).length ≤ fuel0 + 1 :=
      le_trans (le_max_left _ _) (le_trans hmax (Nat.le_succ fuel0))
    have hfb : recordsFuel rows ≤ fuel0 :=
      le_trans (le_max_right _ _) hmax
    obtain ⟨t, ht⟩ := recChars_cons_quote f fs
    cases rows with
    | nil =>
      have hcsv : csvChars [f :: fs] = recChars (f :: fs) := rfl
      have hne2 : recChars (f :: fs) ≠ [] := by
        rw [ht]
        simp
      have hpf : parseFields (fuel0 + 1) (recChars (f :: fs)) =
          some (f :: fs, []) := by
        have h0 := parseFields_recChars (f :: fs) (fuel0 + 1) [] [] hrow
          hfa (Or.inl ⟨rfl, rfl⟩)
        simpa using h0
      rw [hcsv, parseRecords, if_neg hne2, hpf]
      dsimp only
      rw [parseRecords_nil fuel0]
      rfl
    | cons r2 rs =>
      have hcsv : csvChars ((f :: fs) :: r2 :: rs) =
          recChars (f :: fs) ++ ('\n' :: csvChars (r2 :: rs)) := rfl
      have hne2 : recChars (f :: fs) ++ ('\n' :: csvChars (r2 :: rs)) ≠
          [] := by
        rw [ht]
        simp
      have hpf := parseFields_recChars (f :: fs) (fuel0 + 1)
        ('\n' :: csvChars (r2 :: rs)) (csvChars (r2 :: rs)) hrow hfa
        (Or.inr rfl)
      have hih := ih fuel0
        (fun r hr => hne r (List.mem_cons_of_mem _ hr)) hfb
      rw [hcsv, parseRecords, if_neg hne2, hpf]
      dsimp only
      rw [hih]
      rfl

/-- A record's text is at least as long as its field count. -/
theorem recChars_length (row : List (List Char)) :
    row ≠ [] → row.length ≤ (recChars row).length := by
  induction row with
  | nil => intro h; exact absurd rfl h
  | cons f fs ih =>
    intro _
    cases fs with
    | nil =>
      simp [recChars, fieldChars]
    | cons g gs =>
      have hih := ih (by simp)
      simp only [recChars, fieldChars, List.length_append,
        List.length_cons] at *
      omega

/-- The fuel needed by the parser is covered by the text length plus
one. -/
theorem recordsFuel_le (rows : List (List (List Char)))
    (h : ∀ row ∈ rows, row ≠ []) :
    recordsFuel rows ≤ (csvChars rows).length + 1 := by
  induction rows with
  | nil => simp [recordsFuel, csvChars]
  | cons row rows ih =>
    have hrow := recChars_length row (h row (List.mem_cons_self row rows))
    cases rows with
    | nil =>
      simp only [recordsFuel, csvChars]
      omega
    | cons r2 rs =>
      have hih := ih (fun r hr => h r (List.mem_cons_of_mem _ hr))
      simp only [recordsFuel, csvChars, List.length_append,
        List.length_cons] at *
      omega

/-- String append acts as list append on the underlying characters. -/
theorem string_data_append (a b : String) : (a ++ b).data = a.data ++ b.data :=
  rfl

/-- A generated comma-joined row of quoted cells, at character level. -/
theorem joinSep_comma_data (row : List String) :
    (joinSep "," (row.map csvCell)).data =
      recChars (row.map String.data) := by
  induction row with
  | nil => rfl
  | cons f fs ih =>
    cases fs with
    | nil => rfl
    | cons g gs =>
      show (csvCell f ++ "," ++
          joinSep "," ((g :: gs).map csvCell)).data =
        fieldChars f.data ++ (',' :: recChars ((g :: gs).map String.data))
      rw [string_data_append, string_data_append, ih]
      simp [csvCell, fieldChars, List.append_assoc]

/-- The generated newline-joined document, at character level. -/
theorem joinSep_nl_data (rows : List (List String)) :
    (joinSep "\n"
        (rows.map (fun row => joinSep "," (row.map csvCell)))).data =
      csvChars (rows.map (fun row => row.map String.data)) := by
  induction rows with
  | nil => rfl
  | cons row rows ih =>
    cases rows with
    | nil => simpa using joinSep_comma_data row
    | cons r2 rs =>
      show (joinSep "," (row.map csvCell) ++ "\n" ++
          joinSep "\n" ((r2 :: rs).map
            (fun r => joinSep "," (r.map csvCell)))).data =
        recChars (row.map String.data) ++
          ('\n' :: csvChars ((r2 :: rs).map
            (fun r => r.map String.data)))
      rw [string_data_append, string_data_append, ih, joinSep_comma_data]
      simp [List.append_assoc]

/-- Rebuilding strings from their character lists is the identity. -/
theorem map_mk_data (row : List String) :
    (row.map String.data).map (fun f => (⟨f⟩ : String)) = row := by
  induction row with
  | nil => rfl
  | cons s ss ih =>
    simp only [List.map_cons, ih]

/-- Every generated row - the header and each item row - has its six
cells. -/
theorem csvRows_nonempty (items : List JsScoredItem) :
    ∀ row ∈ csvRows items, row ≠ [] := by
  intro row hrow
  rcases List.mem_cons.mp hrow with h | h
  · subst h
    simp [csvHeader]
  · obtain ⟨it, _, rfl⟩ := List.mem_map.mp h
    simp [csvRow]

/-- Claim C10: the CSV export escapes every cell by doubling embedded
double quotes and wrapping in quotes, and parsing the produced text under
standard CSV quoting rules recovers exactly the fixed six-column header
row plus one row per scored item with every field's original string value
(escape/parse round-trip). -/
theorem c10_csv_roundtrip (items : List JsScoredItem) :
    parseCsv (csvContent items) = some (csvRows items) := by
  unfold parseCsv
  have hcc : (csvContent items).data =
      csvChars ((csvRows items).map (fun row => row.map String.data)) :=
    joinSep_nl_data (csvRows items)
  have hne : ∀ row ∈ (csvRows items).map (fun row => row.map String.data),
      row ≠ [] := by
    intro row hrow
    obtain ⟨r, hr, rfl⟩ := List.mem_map.mp hrow
    have hr' := csvRows_nonempty items r hr
    intro hmap
    exact hr' (List.map_eq_nil.mp hmap)
  rw [hcc]
  rw [parseRecords_csvChars _ _ hne (recordsFuel_le _ hne)]
  rw [Option.map_some']
  rw [List.map_map]
  have hid : ((fun row => List.map (fun f => (⟨f⟩ : String)) row) ∘
      fun row => List.map String.data row) = id := by
    funext r
    exact map_mk_data r
  rw [hid, List.map_id]
